import Mathlib

/-!
Verification of the maxidial-reports ingestion-and-aggregation core.

This file gives a shallow embedding, in Lean, of the algorithmic core of the
repository: the paginated fetch loop of `AdversusClient.getCallLogs` /
`AdversusClient.getLeads` (src/lib/adversus-client.ts), the lead-resolution
loop, the call-summary daily bucketing, the agent-performance conversion
attribution and ranking, the campaign-analytics rate derivation
(src/lib/report-generator, the unnamed source part defining `ReportGenerator`),
and the `ReportCache` (src/lib/pdfkit-wrapper.ts).  Timestamps are modelled as
natural numbers (milliseconds), calendar days as natural numbers, and the
JavaScript `number` arithmetic on counters as `Nat` / `ℚ` arithmetic.
Network effects are modelled by explicit server oracles; the `async` loops
become fuel-indexed recursions (`none` = the fuel ran out before the loop's own
exit conditions fired, so a `some` result is one the real loop reaches).
-/

/-! ### Records -/

/-- A call-detail record as consumed by the report generator.  `userId` is the
agent id (`parseInt(cdr.userId) || 0` in the source; 0 = system), `leadId` is
the optional lead reference (`some 0` models a JS falsy `leadId: 0`, which the
source skips), `type` is the direction string, `disposition` the outcome
string, `startTime` a millisecond timestamp. -/
structure Cdr where
  userId : Nat
  campaignId : Nat
  leadId : Option Nat
  type : String
  disposition : String
  startTime : Nat
  durationSeconds : Nat
  conversationSeconds : Nat
  deriving Repr, DecidableEq

/-- A lead record: id, campaign, status vocabulary string, and the optional
`lastModifiedTime` millisecond timestamp (absent models a JS falsy value). -/
structure Lead where
  id : Nat
  campaignId : Nat
  status : String
  lastModifiedTime : Option Nat
  deriving Repr, DecidableEq

/-! ### Paginated fetcher (`AdversusClient.getCallLogs` / `getLeads`)

The while-loop at src/lib/adversus-client.ts:124-192 (and its copy for leads
at 257-319).  A server oracle answers each request with either a page of
records plus optional pagination metadata (the `meta.pagination.pageCount`
field), a 429 throttle signal, or a non-throttle transport failure.  The
oracle sees the index of the request (so a throttle can be transient) and the
requested page number. -/

/-- Outcome of one page request, as discriminated by the source's
`try`/`catch`: a successful response (bare array or envelope, with
`meta.pagination.pageCount` when `includeMeta` produced it), an HTTP 429,
or any other transport failure. -/
inductive PageResult (α : Type) where
  | ok (records : List α) (pageCount : Option Nat)
  | throttled
  | fail
  deriving Repr

/-- The pagination while-loop of `getCallLogs`, started at page `page` having
already made `t` requests.  Returns the records accumulated from page `page`
on together with the number of requests this run makes, or `none` if `fuel`
iterations were not enough (the real loop has no iteration cap).  Branches,
in source order: an empty page stops the loop (`No more data`); otherwise the
records are kept and the loop stops when `currentPage >= pageCount` (metadata
present) or `records.length < pageSize` (fallback); a 429 retries the same
page after a cooldown (the cursor is not advanced); any other failure stops
the loop, keeping what was accumulated (the `catch` sets
`hasMorePages = false` instead of rethrowing). -/
def fetchPagesFrom (server : Nat → Nat → PageResult α) (pageSize : Nat) :
    Nat → Nat → Nat → Option (List α × Nat)
  | 0, _, _ => none
  | fuel+1, t, page =>
    match server t page with
    | .ok recs meta =>
      if recs.length = 0 then
        some ([], 1)
      else
        if (match meta with
            | some pageCount => decide (pageCount ≤ page)
            | none => decide (recs.length < pageSize)) then
          some (recs, 1)
        else
          match fetchPagesFrom server pageSize fuel (t+1) (page+1) with
          | none => none
          | some (rest, n) => some (recs ++ rest, n+1)
    | .throttled =>
        match fetchPagesFrom server pageSize fuel (t+1) page with
        | none => none
        | some (res, n) => some (res, n+1)
    | .fail => some ([], 1)

/-- `fetchAll` materializes the whole collection: the loop starts at
`currentPage = 1` with nothing accumulated and no requests made. -/
def fetchAll (server : Nat → Nat → PageResult α) (pageSize fuel : Nat) :
    Option (List α × Nat) :=
  fetchPagesFrom server pageSize fuel 0 1

/-- Page `page` (1-based) of the collection `l` under page size `pageSize`,
exactly as a well-behaved remote collection slices it. -/
def pageSlice (l : List α) (pageSize page : Nat) : List α :=
  (l.drop ((page - 1) * pageSize)).take pageSize

/-- Number of pages the server reports for `n` records at `pageSize` per page
(ceiling division), the `meta.pagination.pageCount` value. -/
def pageCountOf (n pageSize : Nat) : Nat := (n + pageSize - 1) / pageSize

/-- A faithful, never-failing server for the collection `l`: every request for
page `p` answers with the `p`-th slice, with pagination metadata present when
`withMeta` is true and absent otherwise. -/
def listServer (l : List α) (pageSize : Nat) (withMeta : Bool) :
    Nat → Nat → PageResult α :=
  fun _ page =>
    .ok (pageSlice l pageSize page)
      (if withMeta then some (pageCountOf l.length pageSize) else none)

/-- Wraps a server so that the request with index `t0` (and only that one)
answers with an HTTP 429. -/
def throttleAt (t0 : Nat) (server : Nat → Nat → PageResult α) :
    Nat → Nat → PageResult α :=
  fun t page => if t = t0 then .throttled else server t page

/-- Wraps a server so that every request for page `f` fails with a
non-throttle transport error. -/
def failAtPage (f : Nat) (server : Nat → Nat → PageResult α) :
    Nat → Nat → PageResult α :=
  fun t page => if page = f then .fail else server t page

/-! ### Lead resolver

The page-by-page lead lookup loop of `generateCallSummaryReport`
(and its copies in the other two report generators): starting from the set of
lead ids referenced by in-range calls, fetch lead pages one at a time,
record the status of every lead whose id is still outstanding, and stop as
soon as the outstanding set empties or a page comes back empty. -/

/-- `lead.status || 'unknown'`: a falsy (here: empty) status string is
recorded as `"unknown"`. -/
def statusOrUnknown (s : String) : String := if s = "" then "unknown" else s

/-- One page of the resolution loop: walk the page's leads in order; a lead
whose id is in the outstanding set is recorded (id, status) and its id removed
from the outstanding set.  Returns the new outstanding set and the entries
appended to the status map by this page. -/
def scanPage : List Lead → Finset Nat → Finset Nat × List (Nat × String)
  | [], rem => (rem, [])
  | l :: ls, rem =>
    if l.id ∈ rem then
      let p := scanPage ls (rem.erase l.id)
      (p.1, (l.id, statusOrUnknown l.status) :: p.2)
    else scanPage ls rem

/-- The `while (remainingLeadIds.size > 0)` loop.  `pages p` is the content of
lead page `p` (the single-page `getLeads` call with
`offset = (p-1)*pageSize`).  Returns the accumulated (id, status) entries and
the number of page requests made, or `none` if `fuel` ran out first.
Branches, in source order: the while-condition (empty outstanding set: no
request), the empty-page break, the all-found break, and the `currentPage++`
continuation. -/
def resolveLoop (pages : Nat → List Lead) :
    Nat → Nat → Finset Nat → List (Nat × String) →
    Option (List (Nat × String) × Nat)
  | 0, _, _, _ => none
  | fuel+1, page, rem, found =>
    if rem = ∅ then some (found, 0)
    else
      if pages page = [] then some (found, 1)
      else
        let s := scanPage (pages page) rem
        if s.1 = ∅ then some (found ++ s.2, 1)
        else
          match resolveLoop pages fuel (page+1) s.1 (found ++ s.2) with
          | none => none
          | some (res, n) => some (res, n + 1)

/-- Entry point of the resolution loop: page 1, nothing found yet. -/
def resolveLeads (pages : Nat → List Lead) (requested : Finset Nat)
    (fuel : Nat) : Option (List (Nat × String) × Nat) :=
  resolveLoop pages fuel 1 requested []

/-- The outstanding set after the loop has processed pages
`p, p+1, …, p+j-1` starting from outstanding set `rem`. -/
def remSeqFrom (pages : Nat → List Lead) (p : Nat) (rem : Finset Nat) :
    Nat → Finset Nat
  | 0 => rem
  | j+1 => (scanPage (pages (p + j)) (remSeqFrom pages p rem j)).1

/-! ### Call-summary report: summary counters and daily buckets -/

/-- The summary block of `generateCallSummaryReport`: each counter is a
filter over the in-range calls, with exact string matches on `type` and
`disposition`. -/
structure CallSummaryCounts where
  totalCalls : Nat
  inboundCalls : Nat
  outboundCalls : Nat
  answeredCalls : Nat
  noAnswerCalls : Nat
  busyCalls : Nat
  congestionCalls : Nat
  deriving Repr, DecidableEq

/-- Lines 89-95 of the report generator: `allCalls.length` and the six
`allCalls.filter(...).length` counters. -/
def summaryCounts (calls : List Cdr) : CallSummaryCounts where
  totalCalls := calls.length
  inboundCalls := (calls.filter (fun c => c.type = "inbound")).length
  outboundCalls := (calls.filter (fun c => c.type = "outbound")).length
  answeredCalls := (calls.filter (fun c => c.disposition = "answered")).length
  noAnswerCalls := (calls.filter (fun c => c.disposition = "noAnswer")).length
  busyCalls := (calls.filter (fun c => c.disposition = "busy")).length
  congestionCalls := (calls.filter (fun c => c.disposition = "congestion")).length

/-- A call's disposition is outside the four-value vocabulary the summary
counts. -/
def unknownDisposition (c : Cdr) : Bool :=
  !(c.disposition = "answered" || c.disposition = "noAnswer" ||
    c.disposition = "busy" || c.disposition = "congestion")

/-- One per-day bucket of `callsByDate`, with every counter the source
object carries. -/
structure DailyBucket where
  date : Nat
  total : Nat
  inbound : Nat
  outbound : Nat
  answered : Nat
  noAnswer : Nat
  inboundAnswered : Nat
  inboundNoAnswer : Nat
  outboundAnswered : Nat
  outboundNoAnswer : Nat
  duration : Nat
  conversationTime : Nat
  inboundDuration : Nat
  inboundConversationTime : Nat
  outboundDuration : Nat
  outboundConversationTime : Nat
  deriving Repr, DecidableEq

/-- The all-zero bucket a day is pre-seeded with. -/
def zeroBucket (d : Nat) : DailyBucket where
  date := d
  total := 0
  inbound := 0
  outbound := 0
  answered := 0
  noAnswer := 0
  inboundAnswered := 0
  inboundNoAnswer := 0
  outboundAnswered := 0
  outboundNoAnswer := 0
  duration := 0
  conversationTime := 0
  inboundDuration := 0
  inboundConversationTime := 0
  outboundDuration := 0
  outboundConversationTime := 0

/-- Day number of a millisecond timestamp: the day-granularity projection the
source performs with `format(parseISO(t), 'yyyy-MM-dd')`. -/
def dayOf (t : Nat) : Nat := t / 86400000

/-- Day-level model of the date-fns call
`eachDayOfInterval { start: startOfDay(s), end: endOfDay(e) }`: one entry per
calendar day of the inclusive range. -/
def eachDayOfInterval (startDay endDay : Nat) : List Nat :=
  (List.range (endDay + 1 - startDay)).map (fun i => startDay + i)

/-- The `callsByDate` object right after seeding: one key per day of the
range, each mapped to the all-zero bucket. -/
def seedBuckets (startDay endDay : Nat) : List (Nat × DailyBucket) :=
  (eachDayOfInterval startDay endDay).map (fun d => (d, zeroBucket d))

/-- `cdr.disposition || 'unknown'`: a falsy (here: empty) disposition string
becomes `"unknown"` before the daily folding branches on it. -/
def dispositionOr (c : Cdr) : String :=
  if c.disposition = "" then "unknown" else c.disposition

/-- Folding one call into its day's bucket, exactly the statement sequence of
the `allCalls.forEach` at the daily-bucket fold: `total++`; the
per-direction block for inbound or outbound (duration sums and the
answered/noAnswer split, where every non-`answered` disposition lands in
`NoAnswer`); the overall `answered`/`noAnswer` split with the same rule; the
overall duration sums. -/
def applyCall (b : DailyBucket) (c : Cdr) : DailyBucket :=
  let d := dispositionOr c
  let b1 := { b with total := b.total + 1 }
  let b2 :=
    if c.type = "inbound" then
      let bi := { b1 with
        inbound := b1.inbound + 1
        inboundDuration := b1.inboundDuration + c.durationSeconds
        inboundConversationTime := b1.inboundConversationTime + c.conversationSeconds }
      if d = "answered" then
        { bi with inboundAnswered := bi.inboundAnswered + 1 }
      else
        { bi with inboundNoAnswer := bi.inboundNoAnswer + 1 }
    else if c.type = "outbound" then
      let bo := { b1 with
        outbound := b1.outbound + 1
        outboundDuration := b1.outboundDuration + c.durationSeconds
        outboundConversationTime := b1.outboundConversationTime + c.conversationSeconds }
      if d = "answered" then
        { bo with outboundAnswered := bo.outboundAnswered + 1 }
      else
        { bo with outboundNoAnswer := bo.outboundNoAnswer + 1 }
    else b1
  let b3 :=
    if d = "answered" then { b2 with answered := b2.answered + 1 }
    else { b2 with noAnswer := b2.noAnswer + 1 }
  { b3 with
    duration := b3.duration + c.durationSeconds
    conversationTime := b3.conversationTime + c.conversationSeconds }

/-- `callsByDate[date] = applyCall(callsByDate[date], c)` on an association
list: only the entry whose key is the call's day is touched.  (In the source
the key is always present, because the calls were pre-filtered into the
seeded date range.) -/
def updateBucket (m : List (Nat × DailyBucket)) (day : Nat) (c : Cdr) :
    List (Nat × DailyBucket) :=
  m.map (fun kv => if kv.1 = day then (kv.1, applyCall kv.2 c) else kv)

/-- The whole `allCalls.forEach` daily fold over the seeded map. -/
def foldCalls (m : List (Nat × DailyBucket)) (calls : List Cdr) :
    List (Nat × DailyBucket) :=
  calls.foldl (fun m c => updateBucket m (dayOf c.startTime) c) m

/-! ### Agent-performance report: conversion attribution -/

/-- JS truthiness of `if (cdr.leadId)`: a missing id and id 0 are both
skipped. -/
def leadIdOf (c : Cdr) : Option Nat :=
  match c.leadId with
  | some l => if l = 0 then none else some l
  | none => none

/-- Closed-interval date filter on a call's `startTime`
(`callDate >= startDateObj && callDate <= endDateObj`). -/
def inRangeCall (s e : Nat) (c : Cdr) : Bool :=
  decide (s ≤ c.startTime) && decide (c.startTime ≤ e)

/-- The `filteredCdrArray` of the report generators. -/
def inRangeCalls (s e : Nat) (calls : List Cdr) : List Cdr :=
  calls.filter (inRangeCall s e)

/-- The lead-side window filter: a lead passes iff it has a (truthy)
`lastModifiedTime` lying in the closed window. -/
def leadInWindow (s e : Nat) (l : Lead) : Bool :=
  match l.lastModifiedTime with
  | some t => decide (s ≤ t) && decide (t ≤ e)
  | none => false

/-- The `filteredLeads` list of `generateAgentPerformanceReport`. -/
def filteredLeads (s e : Nat) (leads : List Lead) : List Lead :=
  leads.filter (leadInWindow s e)

/-- `leadToAgentsMap.get(lid)`: the set of agent ids (`parseInt(cdr.userId)`,
0 for system) of the calls among `calls` that reference lead `lid`. -/
def leadAgents (calls : List Cdr) (lid : Nat) : Finset Nat :=
  ((calls.filter (fun c => leadIdOf c = some lid)).map (fun c => c.userId)).toFinset

/-- The agent ids that own an `agentStats` entry: every fetched user plus the
synthetic id-0 `System/Automated` row. -/
def knownAgents (users : List Nat) : Finset Nat :=
  insert 0 users.toFinset

/-- The two per-agent conversion counters. -/
structure ConvCounters where
  totalLeads : Nat
  convertedLeads : Nat
  deriving Repr, DecidableEq

/-- Folding one window-filtered lead into the per-agent counters: each agent
in `leadToAgentsMap.get(lead.id)` that owns a stats entry gets `totalLeads++`,
plus `convertedLeads++` when the lead's status is the success sentinel. -/
def foldLeadConv (calls : List Cdr) (known : Finset Nat)
    (stats : Nat → ConvCounters) (l : Lead) : Nat → ConvCounters :=
  fun a =>
    if a ∈ known ∧ a ∈ leadAgents calls l.id then
      { totalLeads := (stats a).totalLeads + 1
        convertedLeads := (stats a).convertedLeads +
          (if l.status = "success" then 1 else 0) }
    else stats a

/-- The conversion-attribution pass of `generateAgentPerformanceReport`:
filter the resolved leads to the window, build the lead→agents map from the
in-range calls, and fold every filtered lead into the counters of each agent
that called it. -/
def convStats (s e : Nat) (calls : List Cdr) (users : List Nat)
    (leads : List Lead) : Nat → ConvCounters :=
  (filteredLeads s e leads).foldl
    (foldLeadConv (inRangeCalls s e calls) (knownAgents users))
    (fun _ => ⟨0, 0⟩)

/-! ### Agent-performance ranking -/

/-- The fields of an `agentStats` row the ranking reads.  `conversionRate` is
the value of the row's rate field (the source stores it as a
`toFixed(2)` string and compares `parseFloat` of it; the embedding keeps the
numeric value). -/
structure AgentStat where
  agentId : Nat
  totalCalls : Nat
  convertedLeads : Nat
  conversionRate : ℚ
  deriving Repr, DecidableEq

/-- The eligibility filter of both the Top-Agents card and the table ranking:
`totalCalls >= 5 && convertedLeads > 0 && agentId !== 0`. -/
def eligible (a : AgentStat) : Bool :=
  decide (5 ≤ a.totalCalls) && decide (0 < a.convertedLeads) &&
    decide (a.agentId ≠ 0)

/-- "`a` sorts no later than `b`" under the comparator passed to
`Array.sort`: strictly higher conversion rate first; on equal rates, fewer
total calls first. -/
def effBefore (a b : AgentStat) : Prop :=
  b.conversionRate < a.conversionRate ∨
    (a.conversionRate = b.conversionRate ∧ a.totalCalls ≤ b.totalCalls)

instance : DecidableRel effBefore := fun a b => by
  unfold effBefore; infer_instance

/-- `sortedByEfficiency`: the eligible rows sorted by the comparator.
`Array.sort` is a stable sort; it is modelled by the stable
`List.insertionSort`. -/
def sortedByEfficiency (stats : List AgentStat) : List AgentStat :=
  (stats.filter eligible).insertionSort effBefore

/-- The table's rank column: an eligible agent's 1-based position in
`sortedByEfficiency` (`findIndex` on the agent id, plus one), `none` (the
rendered `-`) for an ineligible agent. -/
def rankOf (stats : List AgentStat) (a : AgentStat) : Option Nat :=
  if eligible a then
    some ((sortedByEfficiency stats).findIdx (fun x => x.agentId = a.agentId) + 1)
  else none

/-- The Top-Agents card: the first five rows of the sorted eligible list
(`.slice(0, 5)`). -/
def topAgents (stats : List AgentStat) : List AgentStat :=
  (sortedByEfficiency stats).take 5

/-! ### Derived rates (agent-performance vs campaign-analytics) -/

/-- The counters a stats row carries before the rate-derivation pass; the
agent rows and the campaign rows share all of these fields. -/
structure EntityStats where
  totalCalls : Nat
  answeredCalls : Nat
  totalDuration : Nat
  totalConversationTime : Nat
  totalLeads : Nat
  convertedLeads : Nat
  avgDuration : ℚ
  avgConversationTime : ℚ
  avgTalkTime : ℚ
  answerRate : ℚ
  completionRate : ℚ
  conversionRate : ℚ
  deriving Repr, DecidableEq

/-- The rate-derivation pass of `generateAgentPerformanceReport` (the
`Object.keys(agentStats).forEach` that fills the derived fields).  The source
formats each rate with `toFixed(2)` for display; the embedding keeps the
exact value.  The conversion rate divides by `totalCalls`. -/
def deriveAgentRates (s : EntityStats) : EntityStats :=
  let s1 := { s with
    avgDuration :=
      if 0 < s.totalCalls then (s.totalDuration : ℚ) / s.totalCalls else 0
    avgConversationTime :=
      if 0 < s.totalCalls then (s.totalConversationTime : ℚ) / s.totalCalls else 0 }
  let s2 := { s1 with avgTalkTime := s1.avgConversationTime }
  let s3 := { s2 with
    answerRate :=
      if 0 < s.totalCalls then (s.answeredCalls : ℚ) / s.totalCalls * 100 else 0 }
  let s4 := { s3 with completionRate := s3.answerRate }
  { s4 with
    conversionRate :=
      if 0 < s.totalCalls then (s.convertedLeads : ℚ) / s.totalCalls * 100 else 0 }

/-- The rate-derivation pass of `generateCampaignAnalyticsReport`.  Identical
to the agent pass except for the last step: the conversion rate divides by
`totalLeads`. -/
def deriveCampaignRates (s : EntityStats) : EntityStats :=
  let s1 := { s with
    avgDuration :=
      if 0 < s.totalCalls then (s.totalDuration : ℚ) / s.totalCalls else 0
    avgConversationTime :=
      if 0 < s.totalCalls then (s.totalConversationTime : ℚ) / s.totalCalls else 0 }
  let s2 := { s1 with avgTalkTime := s1.avgConversationTime }
  let s3 := { s2 with
    answerRate :=
      if 0 < s.totalCalls then (s.answeredCalls : ℚ) / s.totalCalls * 100 else 0 }
  let s4 := { s3 with completionRate := s3.answerRate }
  { s4 with
    conversionRate :=
      if 0 < s.totalLeads then (s.convertedLeads : ℚ) / s.totalLeads * 100 else 0 }

/-! ### Report cache (`ReportCache`, src/lib/pdfkit-wrapper.ts) -/

/-- One cache entry: payload, write time, expiry time (milliseconds). -/
structure CacheEntry (α : Type) where
  data : α
  timestamp : Nat
  expiresAt : Nat
  deriving Repr, DecidableEq

/-- The cache key `` `${reportType}:${startDate}:${endDate}` ``. -/
def generateKey (reportType startDate endDate : String) : String :=
  reportType ++ ":" ++ startDate ++ ":" ++ endDate

/-- The 30-minute default TTL. -/
def defaultTTL : Nat := 30 * 60 * 1000

/-- `ttl || this.defaultTTL`: an absent ttl falls back to the default, and so
does a (falsy) explicit 0. -/
def ttlOrDefault : Option Nat → Nat
  | some t => if t = 0 then defaultTTL else t
  | none => defaultTTL

/-- The `cleanup` sweep: every entry whose `expiresAt` lies strictly before
`now` is removed. -/
def cacheCleanup (m : String → Option (CacheEntry α)) (now : Nat) :
    String → Option (CacheEntry α) :=
  fun k =>
    match m k with
    | some e => if e.expiresAt < now then none else some e
    | none => none

/-- `ReportCache.set`: write the entry with `expiresAt = now + ttl`, then run
`cleanup`. -/
def cacheSet (m : String → Option (CacheEntry α)) (rt sd ed : String) (d : α)
    (ttl : Option Nat) (now : Nat) : String → Option (CacheEntry α) :=
  cacheCleanup
    (fun k =>
      if k = generateKey rt sd ed then
        some ⟨d, now, now + ttlOrDefault ttl⟩
      else m k)
    now

/-- `ReportCache.get`: a missing key is a miss; a present entry with
`now > entry.expiresAt` is deleted and reported as a miss; otherwise a hit.
Returns the looked-up value together with the cache map after the lookup. -/
def cacheGet (m : String → Option (CacheEntry α)) (rt sd ed : String)
    (now : Nat) : Option α × (String → Option (CacheEntry α)) :=
  let key := generateKey rt sd ed
  match m key with
  | none => (none, m)
  | some e =>
    if e.expiresAt < now then
      (none, fun k => if k = key then none else m k)
    else (some e.data, m)

/-! ### Concrete inputs for the witness theorems -/

/-- Three records, paged two per page: two pages, the last one partial. -/
def smallCollection : List Nat := [10, 20, 30]

/-- Lead pages for the resolution witness: one matching lead on each of the
first two pages, nothing afterwards. -/
def pagesW : Nat → List Lead := fun p =>
  if p = 1 then [⟨5, 1, "success", some 50⟩]
  else if p = 2 then [⟨7, 1, "new", some 60⟩]
  else []

/-- A call whose disposition is outside the four-value vocabulary. -/
def callU : Cdr :=
  { userId := 1, campaignId := 1, leadId := none, type := "outbound"
    disposition := "unknown", startTime := 0, durationSeconds := 30
    conversationSeconds := 10 }

/-- Scenario B calls: agent 7 and agent 9 each call lead 42 inside the
window. -/
def callsB : List Cdr :=
  [{ userId := 7, campaignId := 1, leadId := some 42, type := "outbound"
     disposition := "answered", startTime := 10, durationSeconds := 60
     conversationSeconds := 40 },
   { userId := 9, campaignId := 1, leadId := some 42, type := "outbound"
     disposition := "noAnswer", startTime := 20, durationSeconds := 30
     conversationSeconds := 0 }]

/-- Scenario B lead: status `success`, modified inside the window. -/
def leadsB : List Lead := [⟨42, 1, "success", some 30⟩]

/-- Two eligible agents with identical conversion rate and different call
volumes, plus one ineligible agent (4 calls, below the floor of 5). -/
def agentW : AgentStat := ⟨7, 10, 2, 20⟩

def agentX : AgentStat := ⟨9, 20, 4, 20⟩

def agentY : AgentStat := ⟨3, 4, 4, 100⟩

def statsW : List AgentStat := [agentX, agentW, agentY]

/-- A cache map holding one entry (payload 7, written at 0, expiring at
1000) under a call-summary key. -/
def cacheW : String → Option (CacheEntry Nat) := fun k =>
  if k = generateKey "call-summary" "2024-01-01" "2024-01-31" then
    some ⟨7, 0, 1000⟩
  else none

/-- A stats row with 4 calls, 2 leads, 1 conversion: the two reports derive
different conversion rates from it (25 vs 50). -/
def statsEx : EntityStats where
  totalCalls := 4
  answeredCalls := 2
  totalDuration := 120
  totalConversationTime := 80
  totalLeads := 2
  convertedLeads := 1
  avgDuration := 0
  avgConversationTime := 0
  avgTalkTime := 0
  answerRate := 0
  completionRate := 0
  conversionRate := 0

instance : IsTrans AgentStat effBefore where
  trans a b c hab hbc := by
    rcases hab with h1 | ⟨h1e, h1c⟩ <;> rcases hbc with h2 | ⟨h2e, h2c⟩
    · exact Or.inl (lt_trans h2 h1)
    · exact Or.inl (h2e ▸ h1)
    · exact Or.inl (h1e ▸ h2)
    · exact Or.inr ⟨h1e.trans h2e, le_trans h1c h2c⟩

instance : IsTotal AgentStat effBefore where
  total a b := by
    rcases lt_trichotomy a.conversionRate b.conversionRate with h | h | h
    · exact Or.inr (Or.inl h)
    · rcases Nat.le_total a.totalCalls b.totalCalls with hc | hc
      · exact Or.inl (Or.inr ⟨h, hc⟩)
      · exact Or.inr (Or.inr ⟨h.symm, hc⟩)
    · exact Or.inl (Or.inl h)

/-! ## Theorems -/

/-! ### Helper lemmas -/

theorem countP_disposition_split (l : List Cdr) :
    l.countP (fun c => c.disposition = "answered") +
      l.countP (fun c => c.disposition = "noAnswer") +
      l.countP (fun c => c.disposition = "busy") +
      l.countP (fun c => c.disposition = "congestion") +
      l.countP unknownDisposition = l.length := by
  induction l with
  | nil => simp
  | cons c cs ih =>
    simp only [List.countP_cons, List.length_cons]
    by_cases h1 : c.disposition = "answered" <;>
      by_cases h2 : c.disposition = "noAnswer" <;>
      by_cases h3 : c.disposition = "busy" <;>
      by_cases h4 : c.disposition = "congestion" <;>
      simp_all [unknownDisposition] <;> omega

theorem applyCall_split_counts (b : DailyBucket) (c : Cdr) :
    (applyCall b c).total = b.total + 1 ∧
    (applyCall b c).answered + (applyCall b c).noAnswer =
      b.answered + b.noAnswer + 1 := by
  simp only [applyCall]
  split_ifs <;> simp <;> omega

theorem applyCall_nonanswered (b : DailyBucket) (c : Cdr)
    (h : dispositionOr c ≠ "answered") :
    (applyCall b c).noAnswer = b.noAnswer + 1 ∧
    (applyCall b c).answered = b.answered := by
  simp only [applyCall]
  split_ifs <;> simp_all

theorem foldCalls_preserves (P : Nat × DailyBucket → Prop)
    (hP : ∀ kv c, P kv → P (kv.1, applyCall kv.2 c))
    (calls : List Cdr) :
    ∀ m : List (Nat × DailyBucket), (∀ kv ∈ m, P kv) →
      ∀ kv ∈ foldCalls m calls, P kv := by
  induction calls with
  | nil => intro m hm; simpa [foldCalls] using hm
  | cons c cs ih =>
    intro m hm
    have hstep : ∀ kv ∈ updateBucket m (dayOf c.startTime) c, P kv := by
      intro kv hkv
      simp only [updateBucket, List.mem_map] at hkv
      obtain ⟨kv0, hkv0, hkveq⟩ := hkv
      by_cases hd : kv0.1 = dayOf c.startTime
      · rw [if_pos hd] at hkveq
        exact hkveq ▸ hP kv0 c (hm kv0 hkv0)
      · rw [if_neg hd] at hkveq
        exact hkveq ▸ hm kv0 hkv0
    simpa [foldCalls] using ih (updateBucket m (dayOf c.startTime) c) hstep

/-! ### Claim C2 (corrected): disposition counter conservation -/

/-- Claim C2, counterexample.  The claim asserts that, in every bucket a
report produces, a call with an unknown disposition is excluded from all
disposition sub-counts while still being counted in `total`.  Folding the
single call `callU` (disposition string outside the four-value vocabulary)
into the seeded one-day map puts it in the daily bucket's `noAnswer`
sub-count: the bucket reads total 1, answered 0, noAnswer 1, so the
exclusion fails at the daily-bucket level. -/
theorem claim_C2_counterexample :
    (foldCalls (seedBuckets 0 0) [callU]).map
        (fun kv => (kv.2.total, kv.2.answered, kv.2.noAnswer)) = [(1, 0, 1)] ∧
    ¬ (∀ kv ∈ foldCalls (seedBuckets 0 0) [callU], kv.2.noAnswer = 0) := by
  constructor
  · rfl
  · intro h
    have hm : (0, applyCall (zeroBucket 0) callU) ∈ foldCalls (seedBuckets 0 0) [callU] := by
      have he : foldCalls (seedBuckets 0 0) [callU] =
          [(0, applyCall (zeroBucket 0) callU)] := rfl
      rw [he]
      exact List.mem_singleton.mpr rfl
    have := h (0, applyCall (zeroBucket 0) callU) hm
    simp [applyCall, zeroBucket, callU, dispositionOr] at this

/-- Claim C2, amended: at the report-summary level,
`answered + noAnswer + busy + congestion + (number of unknown-disposition
calls) = total`, so the four sub-counts add up to `total` exactly when every
disposition is one of the four known values and an unknown-disposition call
is excluded from the four sub-counts while still counted in `total`.  In the
call-summary daily buckets, however, every call whose disposition is not
`answered` — busy, congestion and unknown alike — is folded into the
bucket's `noAnswer` counter, so there `answered + noAnswer = total`
unconditionally. -/
theorem claim_C2 :
    (∀ calls : List Cdr,
      (summaryCounts calls).answeredCalls + (summaryCounts calls).noAnswerCalls +
        (summaryCounts calls).busyCalls + (summaryCounts calls).congestionCalls +
        calls.countP unknownDisposition = (summaryCounts calls).totalCalls) ∧
    (∀ calls : List Cdr, (∀ c ∈ calls, unknownDisposition c = false) →
      (summaryCounts calls).answeredCalls + (summaryCounts calls).noAnswerCalls +
        (summaryCounts calls).busyCalls + (summaryCounts calls).congestionCalls =
        (summaryCounts calls).totalCalls) ∧
    (∀ startDay endDay : Nat, ∀ calls : List Cdr,
      ∀ kv ∈ foldCalls (seedBuckets startDay endDay) calls,
        kv.2.answered + kv.2.noAnswer = kv.2.total) ∧
    (∀ (b : DailyBucket) (c : Cdr), dispositionOr c ≠ "answered" →
      (applyCall b c).noAnswer = b.noAnswer + 1 ∧
      (applyCall b c).answered = b.answered ∧
      (applyCall b c).total = b.total + 1) := by
  refine ⟨?_, ?_, ?_, ?_⟩
  · intro calls
    have h := countP_disposition_split calls
    simpa [summaryCounts, List.countP_eq_length_filter] using h
  · intro calls hknown
    have h := countP_disposition_split calls
    have hz : calls.countP unknownDisposition = 0 := by
      rw [List.countP_eq_zero]
      intro c hc
      simp [hknown c hc]
    rw [hz] at h
    simpa [summaryCounts, List.countP_eq_length_filter] using h
  · intro s e calls kv hkv
    refine foldCalls_preserves (fun kv => kv.2.answered + kv.2.noAnswer = kv.2.total)
      (fun kv c hkv => ?_) calls (seedBuckets s e) ?_ kv hkv
    · have h := applyCall_split_counts kv.2 c
      simp only []
      omega
    · intro kv hkv
      simp only [seedBuckets, List.mem_map] at hkv
      obtain ⟨d, _, rfl⟩ := hkv
      simp [zeroBucket]
  · intro b c h
    refine ⟨(applyCall_nonanswered b c h).1, (applyCall_nonanswered b c h).2, ?_⟩
    exact (applyCall_split_counts b c).1

/-- Claim C2 witness: the amended statement applied at concrete inputs — the
Scenario-A-style call list (all dispositions known) satisfies the four-way
conservation, the fold of `callsB` over a seeded one-day map satisfies the
daily `answered + noAnswer = total` invariant, and folding the
unknown-disposition call `callU` increments `noAnswer`. -/
theorem claim_C2_witness :
    ((summaryCounts callsB).answeredCalls + (summaryCounts callsB).noAnswerCalls +
      (summaryCounts callsB).busyCalls + (summaryCounts callsB).congestionCalls =
      (summaryCounts callsB).totalCalls) ∧
    (∀ kv ∈ foldCalls (seedBuckets 0 0) callsB,
      kv.2.answered + kv.2.noAnswer = kv.2.total) ∧
    ((applyCall (zeroBucket 0) callU).noAnswer = 0 + 1 ∧
      (applyCall (zeroBucket 0) callU).answered = 0 ∧
      (applyCall (zeroBucket 0) callU).total = 0 + 1) := by
  refine ⟨claim_C2.2.1 callsB (by decide), claim_C2.2.2.1 0 0 callsB, ?_⟩
  have h := claim_C2.2.2.2 (zeroBucket 0) callU (by decide)
  simpa [zeroBucket] using h

/-! ### Claim C8: daily bucket seeding -/

/-- Claim C8: for a date range spanning days `startDay ≤ endDay`, the seeded
`callsByDate` map holds exactly one bucket per calendar day of the inclusive
range — its size is the inclusive day count — every bucket is the all-zero
bucket for its day, and the set of seeded days is exactly the closed
interval. -/
theorem claim_C8 (startDay endDay : Nat) (h : startDay ≤ endDay) :
    (seedBuckets startDay endDay).length = endDay - startDay + 1 ∧
    (∀ kv ∈ seedBuckets startDay endDay, kv.2 = zeroBucket kv.1) ∧
    (∀ d, (d, zeroBucket d) ∈ seedBuckets startDay endDay ↔
      startDay ≤ d ∧ d ≤ endDay) := by
  refine ⟨?_, ?_, ?_⟩
  · simp [seedBuckets, eachDayOfInterval]
    omega
  · intro kv hkv
    simp only [seedBuckets, eachDayOfInterval, List.mem_map, List.mem_range] at hkv
    obtain ⟨d, ⟨i, _, rfl⟩, rfl⟩ := hkv
    rfl
  · intro d
    simp only [seedBuckets, eachDayOfInterval, List.mem_map, List.mem_range]
    constructor
    · rintro ⟨d0, ⟨i, hi, rfl⟩, heq, -⟩
      omega
    · rintro ⟨h1, h2⟩
      exact ⟨d, ⟨d - startDay, by omega, by omega⟩, rfl⟩

/-- Claim C8 witness: the seeding applied to the three-day range of days
3 … 5. -/
theorem claim_C8_witness :
    (seedBuckets 3 5).length = 5 - 3 + 1 ∧
    (∀ kv ∈ seedBuckets 3 5, kv.2 = zeroBucket kv.1) ∧
    (∀ d, (d, zeroBucket d) ∈ seedBuckets 3 5 ↔ 3 ≤ d ∧ d ≤ 5) :=
  claim_C8 3 5 (by decide)

/-! ### Claim C9: cache expiry -/

/-- Claim C9: a `get` whose lookup time lies strictly past the entry's
`expiresAt` returns absent and deletes the entry; in particular, after
`set(key, report, ttl = 1s)` at time `t`, a `get(key)` at `t + 2s` returns
absent and the entry is gone from the store. -/
theorem claim_C9 (α : Type) :
    (∀ (m : String → Option (CacheEntry α)) (rt sd ed : String)
        (now : Nat) (e : CacheEntry α),
      m (generateKey rt sd ed) = some e → e.expiresAt < now →
      (cacheGet m rt sd ed now).1 = none ∧
      (cacheGet m rt sd ed now).2 (generateKey rt sd ed) = none) ∧
    (∀ (m : String → Option (CacheEntry α)) (rt sd ed : String) (d : α)
        (t : Nat),
      (cacheGet (cacheSet m rt sd ed d (some 1000) t) rt sd ed (t + 2000)).1 =
        none ∧
      (cacheGet (cacheSet m rt sd ed d (some 1000) t) rt sd ed (t + 2000)).2
        (generateKey rt sd ed) = none) := by
  constructor
  · intro m rt sd ed now e he hlt
    simp [cacheGet, he, hlt]
  · intro m rt sd ed d t
    have hkey : cacheSet m rt sd ed d (some 1000) t (generateKey rt sd ed) =
        some ⟨d, t, t + 1000⟩ := by
      simp [cacheSet, cacheCleanup, ttlOrDefault]
    have hlt : (⟨d, t, t + 1000⟩ : CacheEntry α).expiresAt < t + 2000 := by
      simp
    simp [cacheGet, hkey, hlt]

/-- Claim C9 witness: the general expiry statement applied to the concrete
map `cacheW` (entry expiring at 1000) looked up at time 5000, plus the
Scenario-C instance starting from the empty map at time 0. -/
theorem claim_C9_witness :
    ((cacheGet cacheW "call-summary" "2024-01-01" "2024-01-31" 5000).1 = none ∧
      (cacheGet cacheW "call-summary" "2024-01-01" "2024-01-31" 5000).2
        (generateKey "call-summary" "2024-01-01" "2024-01-31") = none) ∧
    ((cacheGet (cacheSet (fun _ => none) "call-summary" "2024-01-01"
        "2024-01-31" (7 : Nat) (some 1000) 0) "call-summary" "2024-01-01"
        "2024-01-31" 2000).1 = none) :=
  ⟨(claim_C9 Nat).1 cacheW "call-summary" "2024-01-01" "2024-01-31" 5000
      ⟨7, 0, 1000⟩ (by decide) (by decide),
    by
      have h := ((claim_C9 Nat).2 (fun _ => none) "call-summary" "2024-01-01"
        "2024-01-31" 7 0).1
      simpa using h⟩

/-! ### Claim C10: the two conversion-rate denominators -/

/-- Claim C10: campaign-analytics derives
`conversionRate = convertedLeads / totalLeads * 100` (zero when there are no
leads), while agent-performance derives
`conversionRate = convertedLeads / totalCalls * 100` (zero when there are no
calls); on the same row with 4 calls, 2 leads and 1 conversion the two
reports output 50 and 25 respectively. -/
theorem claim_C10 (s : EntityStats) :
    ((deriveCampaignRates s).conversionRate =
      if 0 < s.totalLeads then (s.convertedLeads : ℚ) / s.totalLeads * 100
      else 0) ∧
    ((deriveAgentRates s).conversionRate =
      if 0 < s.totalCalls then (s.convertedLeads : ℚ) / s.totalCalls * 100
      else 0) ∧
    (deriveCampaignRates statsEx).conversionRate = 50 ∧
    (deriveAgentRates statsEx).conversionRate = 25 := by
  refine ⟨rfl, rfl, ?_, ?_⟩
  · show (if 0 < statsEx.totalLeads
      then (statsEx.convertedLeads : ℚ) / statsEx.totalLeads * 100 else 0) = 50
    norm_num [statsEx]
  · show (if 0 < statsEx.totalCalls
      then (statsEx.convertedLeads : ℚ) / statsEx.totalCalls * 100 else 0) = 25
    norm_num [statsEx]

/-! ### Claim C4: conversion attribution -/

theorem convFold_eval (calls : List Cdr) (known : Finset Nat) (a : Nat)
    (ha : a ∈ known) :
    ∀ (ls : List Lead) (st : Nat → ConvCounters),
      ((ls.foldl (foldLeadConv calls known) st) a).totalLeads =
        (st a).totalLeads +
          ls.countP (fun l => decide (a ∈ leadAgents calls l.id)) ∧
      ((ls.foldl (foldLeadConv calls known) st) a).convertedLeads =
        (st a).convertedLeads +
          ls.countP (fun l =>
            decide (a ∈ leadAgents calls l.id) && decide (l.status = "success")) := by
  intro ls
  induction ls with
  | nil => intro st; simp
  | cons l ls ih =>
    intro st
    have hstep := ih (foldLeadConv calls known st l)
    rw [List.foldl_cons]
    rcases hstep with ⟨h1, h2⟩
    rw [h1, h2]
    by_cases hmem : a ∈ leadAgents calls l.id
    · by_cases hs : l.status = "success" <;>
        simp [foldLeadConv, ha, hmem, hs, List.countP_cons] <;> omega
    · simp [foldLeadConv, hmem, List.countP_cons]

/-- Claim C4: for an agent `a` owning a stats row, the conversion pass counts
a lead in `a`'s `totalLeads` exactly when the lead's `lastModifiedTime` lies
in the report window and `a` placed at least one in-range call referencing
that lead (so one lead can count for several agents), and additionally in
`convertedLeads` exactly when its status is `success`; membership in the
lead→agents map is characterized by the existence of such a call. -/
theorem claim_C4 (s e : Nat) (calls : List Cdr) (users : List Nat)
    (leads : List Lead) (a : Nat) (ha : a ∈ knownAgents users) :
    ((convStats s e calls users leads a).totalLeads =
      leads.countP (fun l =>
        leadInWindow s e l &&
          decide (a ∈ leadAgents (inRangeCalls s e calls) l.id))) ∧
    ((convStats s e calls users leads a).convertedLeads =
      leads.countP (fun l =>
        leadInWindow s e l &&
          decide (a ∈ leadAgents (inRangeCalls s e calls) l.id) &&
          decide (l.status = "success"))) ∧
    (∀ lid, a ∈ leadAgents (inRangeCalls s e calls) lid ↔
      ∃ c ∈ calls, (s ≤ c.startTime ∧ c.startTime ≤ e) ∧
        leadIdOf c = some lid ∧ c.userId = a) := by
  have h := convFold_eval (inRangeCalls s e calls) (knownAgents users) a ha
    (filteredLeads s e leads) (fun _ => ⟨0, 0⟩)
  refine ⟨?_, ?_, ?_⟩
  · rw [show convStats s e calls users leads = (filteredLeads s e leads).foldl
      (foldLeadConv (inRangeCalls s e calls) (knownAgents users)) (fun _ => ⟨0, 0⟩)
      from rfl, h.1]
    simp only [filteredLeads, List.countP_filter, Nat.zero_add]
    refine List.countP_congr (fun l _ => ?_)
    cases hw : leadInWindow s e l <;>
      cases hm : decide (a ∈ leadAgents (inRangeCalls s e calls) l.id) <;> simp_all
  · rw [show convStats s e calls users leads = (filteredLeads s e leads).foldl
      (foldLeadConv (inRangeCalls s e calls) (knownAgents users)) (fun _ => ⟨0, 0⟩)
      from rfl, h.2]
    simp only [filteredLeads, List.countP_filter, Nat.zero_add]
    refine List.countP_congr (fun l _ => ?_)
    cases hw : leadInWindow s e l <;>
      cases hm : decide (a ∈ leadAgents (inRangeCalls s e calls) l.id) <;>
      cases hs : decide (l.status = "success") <;> simp_all
  · intro lid
    simp only [leadAgents, List.mem_toFinset, List.mem_map, List.mem_filter,
      inRangeCalls, inRangeCall, Bool.and_eq_true, decide_eq_true_eq]
    constructor
    · rintro ⟨c, ⟨⟨hc, hs1, hs2⟩, hlid⟩, hu⟩
      exact ⟨c, hc, ⟨hs1, hs2⟩, hlid, hu⟩
    · rintro ⟨c, hc, ⟨hs1, hs2⟩, hlid, hu⟩
      exact ⟨c, ⟨⟨hc, hs1, hs2⟩, hlid⟩, hu⟩

/-- Claim C4 witness (Scenario B): lead 42 has status `success` and is
modified inside the window [0, 100]; agents 7 and 9 each placed one in-range
call referencing it, so the theorem instantiated at either agent counts the
lead once for each of them — both agents' counters read
`totalLeads = convertedLeads = 1`. -/
theorem claim_C4_witness :
    (convStats 0 100 callsB [7, 9] leadsB 7).totalLeads = 1 ∧
    (convStats 0 100 callsB [7, 9] leadsB 7).convertedLeads = 1 ∧
    (convStats 0 100 callsB [7, 9] leadsB 9).totalLeads = 1 ∧
    (convStats 0 100 callsB [7, 9] leadsB 9).convertedLeads = 1 := by
  have h7 := claim_C4 0 100 callsB [7, 9] leadsB 7 (by decide)
  have h9 := claim_C4 0 100 callsB [7, 9] leadsB 9 (by decide)
  exact ⟨h7.1.trans (by decide), h7.2.1.trans (by decide),
    h9.1.trans (by decide), h9.2.1.trans (by decide)⟩

/-! ### Claim C3: top-performer eligibility and ranking -/

theorem findIdx_get_sat {α : Type} (p : α → Bool) :
    ∀ (L : List α) (h : L.findIdx p < L.length),
      p (L.get ⟨L.findIdx p, h⟩) = true := by
  intro L
  induction L with
  | nil => intro h; simp at h
  | cons x xs ih =>
    intro h
    by_cases hx : p x = true
    · simp [List.findIdx_cons, hx]
    · have hcons : (x :: xs).findIdx p = xs.findIdx p + 1 := by
        simp [List.findIdx_cons, hx]
      have hlt : xs.findIdx p < xs.length := by
        have := h
        rw [hcons] at this
        simpa using this
      have hget : (x :: xs).get ⟨(x :: xs).findIdx p, h⟩ =
          xs.get ⟨xs.findIdx p, hlt⟩ := by
        have : ((x :: xs).get ⟨(x :: xs).findIdx p, h⟩ : α) =
            (x :: xs).get ⟨xs.findIdx p + 1, by simpa [hcons] using h⟩ := by
          congr 1
          exact Fin.ext hcons
        rw [this]
        rfl
      rw [hget]
      exact ih hlt

theorem agentId_unique (L : List AgentStat)
    (h : (L.map (fun a => a.agentId)).Nodup) :
    ∀ x ∈ L, ∀ y ∈ L, x.agentId = y.agentId → x = y := by
  induction L with
  | nil => simp
  | cons z zs ih =>
    simp only [List.map_cons, List.nodup_cons, List.mem_map] at h
    intro x hx y hy hxy
    rcases List.mem_cons.mp hx with rfl | hx2 <;>
      rcases List.mem_cons.mp hy with rfl | hy2
    · rfl
    · exact absurd ⟨y, hy2, hxy.symm⟩ h.1
    · exact absurd ⟨x, hx2, hxy⟩ h.1
    · exact ih h.2 x hx2 y hy2 hxy

/-- Claim C3: an agent is in the ranking pool iff
`totalCalls ≥ 5 ∧ convertedLeads > 0 ∧ agentId ≠ 0`; the sorted pool is
pairwise ordered by conversion rate descending with the totalCalls-ascending
tie-break; of two eligible agents with equal conversion rate, the one with
fewer total calls receives the strictly smaller (better) rank; an ineligible
agent — which still owns a row of the full performance table — gets rank
`none`. -/
theorem claim_C3 (stats : List AgentStat)
    (hids : (stats.map (fun a => a.agentId)).Nodup) :
    (∀ a, a ∈ stats.filter eligible ↔
      a ∈ stats ∧ (5 ≤ a.totalCalls ∧ 0 < a.convertedLeads ∧ a.agentId ≠ 0)) ∧
    (sortedByEfficiency stats).Pairwise effBefore ∧
    (∀ a b, a ∈ stats → b ∈ stats → eligible a = true → eligible b = true →
      a.conversionRate = b.conversionRate → a.totalCalls < b.totalCalls →
      ∀ ra rb, rankOf stats a = some ra → rankOf stats b = some rb → ra < rb) ∧
    (∀ a, eligible a = false → rankOf stats a = none) := by
  have hperm : List.Perm (sortedByEfficiency stats) (stats.filter eligible) :=
    List.perm_insertionSort effBefore _
  have hsorted : (sortedByEfficiency stats).Pairwise effBefore :=
    (List.sorted_insertionSort effBefore (stats.filter eligible) : List.Sorted _ _)
  refine ⟨?_, hsorted, ?_, ?_⟩
  · intro a
    simp [List.mem_filter, eligible, and_assoc]
  · intro a b ha hb hea heb hrate hcalls ra rb hra hrb
    set L := sortedByEfficiency stats with hLdef
    have haL : a ∈ L := hperm.mem_iff.mpr (List.mem_filter.mpr ⟨ha, hea⟩)
    have hbL : b ∈ L := hperm.mem_iff.mpr (List.mem_filter.mpr ⟨hb, heb⟩)
    have hLids : (L.map (fun x => x.agentId)).Nodup := by
      have h1 : ((stats.filter eligible).map (fun x => x.agentId)).Nodup :=
        ((List.filter_sublist stats).map _).nodup hids
      exact ((hperm.map _).nodup_iff).mpr h1
    have huniq := agentId_unique L hLids
    have hialt : L.findIdx (fun x => x.agentId = a.agentId) < L.length :=
      List.findIdx_lt_length_of_exists ⟨a, haL, by simp⟩
    have hiblt : L.findIdx (fun x => x.agentId = b.agentId) < L.length :=
      List.findIdx_lt_length_of_exists ⟨b, hbL, by simp⟩
    set ia := L.findIdx (fun x => x.agentId = a.agentId) with hiadef
    set ib := L.findIdx (fun x => x.agentId = b.agentId) with hibdef
    have hgeta : L.get ⟨ia, hialt⟩ = a := by
      refine huniq _ (L.get_mem _ _) a haL ?_
      have h1 := findIdx_get_sat (fun x => x.agentId = a.agentId) L hialt
      simpa using h1
    have hgetb : L.get ⟨ib, hiblt⟩ = b := by
      refine huniq _ (L.get_mem _ _) b hbL ?_
      have h1 := findIdx_get_sat (fun x => x.agentId = b.agentId) L hiblt
      simpa using h1
    have hra2 : ra = ia + 1 := by
      simp only [rankOf, hea, if_true, Option.some.injEq] at hra
      rw [← hiadef] at hra
      omega
    have hrb2 : rb = ib + 1 := by
      simp only [rankOf, heb, if_true, Option.some.injEq] at hrb
      rw [← hibdef] at hrb
      omega
    have hiaib : ia < ib := by
      rcases Nat.lt_trichotomy ia ib with h | h | h
      · exact h
      · exfalso
        have : a = b := by
          rw [← hgeta, ← hgetb]
          congr 1
          exact Fin.ext h
        rw [this] at hcalls
        exact lt_irrefl _ hcalls
      · exfalso
        have heff : effBefore (L.get ⟨ib, hiblt⟩) (L.get ⟨ia, hialt⟩) := by
          have := List.pairwise_iff_getElem.mp hsorted ib ia hiblt hialt h
          simpa using this
        rw [hgeta, hgetb] at heff
        rcases heff with h1 | ⟨h2, h3⟩
        · rw [hrate] at h1
          exact lt_irrefl _ h1
        · omega
    omega
  · intro a haelig
    simp [rankOf, haelig]

/-- Claim C3 witness: on the roster `statsW`, agents 7 and 9 share a 20%
conversion rate; agent 7 (10 calls) ranks 1 and agent 9 (20 calls) ranks 2;
agent 3, ineligible with 4 calls despite a 100% rate, gets no rank. -/
theorem claim_C3_witness :
    (1 : Nat) < 2 ∧ rankOf statsW agentY = none := by
  have h := claim_C3 statsW (by decide)
  refine ⟨?_, h.2.2.2 agentY (by decide)⟩
  exact h.2.2.1 agentW agentX (by decide) (by decide) (by decide) (by decide)
    rfl (by decide) 1 2 (by decide) (by decide)

/-! ### Claims C1, C5, C6: pagination -/

theorem pageSlice_length {α : Type} (l : List α) (S p : Nat) :
    (pageSlice l S p).length = min S (l.length - (p - 1) * S) := by
  simp [pageSlice]

theorem pageCountOf_eq (S P r : Nat) (hP : 1 ≤ P) (hr : 0 < r) (hrS : r < S) :
    pageCountOf ((P - 1) * S + r) S = P := by
  unfold pageCountOf
  have h1 : (P - 1) * S + r + S - 1 = S * (P - 1) + (r + S - 1) := by
    rw [Nat.mul_comm]
    omega
  rw [h1, Nat.mul_add_div (by omega)]
  have h2 : (r + S - 1) / S = 1 := Nat.div_eq_of_lt_le (by omega) (by omega)
  omega

theorem fetchPages_listServer {α : Type} (l : List α) (S P r : Nat) (wm : Bool)
    (hr : 0 < r) (hrS : r < S) (hlen : l.length = (P - 1) * S + r) :
    ∀ (k p t fuel : Nat), 1 ≤ p → p + k = P → k < fuel →
      fetchPagesFrom (listServer l S wm) S fuel t p =
        some (l.drop ((p - 1) * S), k + 1) := by
  intro k
  induction k with
  | zero =>
    intro p t fuel h1 h2 h3
    have hP2 : P = p := by omega
    subst hP2
    cases fuel with
    | zero => omega
    | succ f =>
      have hslice : pageSlice l S P = l.drop ((P - 1) * S) := by
        apply List.take_of_length_le
        rw [List.length_drop, hlen]
        omega
      have hdl : (l.drop ((P - 1) * S)).length = r := by
        rw [List.length_drop, hlen]
        omega
      cases wm with
      | false =>
        simp [fetchPagesFrom, listServer, hslice, hdl, hr.ne', hrS]
      | true =>
        have hpc : pageCountOf l.length S = P := by
          rw [hlen]
          exact pageCountOf_eq S P r h1 hr hrS
        simp [fetchPagesFrom, listServer, hslice, hdl, hpc, hr.ne']
  | succ k ih =>
    intro p t fuel h1 h2 h3
    have hpP : p < P := by omega
    cases fuel with
    | zero => omega
    | succ f =>
      have hd : P - 1 = (p - 1) + (P - p) := by omega
      have hlen2 : l.length = (p - 1) * S + ((P - p) * S + r) := by
        rw [hlen, hd, Nat.add_mul, Nat.add_assoc]
      have hdl : l.length - (p - 1) * S = (P - p) * S + r := by omega
      have hSle : 1 * S ≤ (P - p) * S := Nat.mul_le_mul_right S (by omega)
      have hrl : (pageSlice l S p).length = S := by
        rw [pageSlice_length, hdl]
        omega
      have hih := ih (p + 1) (t + 1) f (by omega) (by omega) (by omega)
      simp only [Nat.add_sub_cancel] at hih
      have hmul : p * S = (p - 1) * S + S := by
        cases p with
        | zero => omega
        | succ q => simp [Nat.succ_mul]
      have happ : pageSlice l S p ++ l.drop (p * S) = l.drop ((p - 1) * S) := by
        have h4 : l.drop (p * S) = (l.drop ((p - 1) * S)).drop S := by
          rw [List.drop_drop, ← hmul]
        rw [h4]
        exact List.take_append_drop S (l.drop ((p - 1) * S))
      have hS0 : ¬ ((pageSlice l S p).length = 0) := by
        rw [hrl]
        omega
      cases wm with
      | false =>
        have hserv : listServer l S false t p = .ok (pageSlice l S p) none := by
          simp [listServer]
        simp only [fetchPagesFrom, hserv]
        rw [if_neg hS0, if_neg (by simp [hrl]), hih]
        simp [happ]
      | true =>
        have hpc : pageCountOf l.length S = P := by
          rw [hlen]
          exact pageCountOf_eq S P r (by omega) hr hrS
        have hserv : listServer l S true t p =
            .ok (pageSlice l S p) (some (pageCountOf l.length S)) := by
          simp [listServer]
        simp only [fetchPagesFrom, hserv]
        rw [if_neg hS0, if_neg (by simp only [hpc, decide_eq_true_eq]; omega), hih]
        simp [happ]

/-- Claim C1: for a collection of `N = (P-1)*S + r` records (`P` pages of
size `S`, last page partial with `0 < r < S`), `fetchAll` — with pagination
metadata present (`wm = true`, stop when `currentPage ≥ pageCount`) or absent
(`wm = false`, stop when a page holds fewer than `pageSize` records) —
returns the whole collection (exactly `N` records, no duplication or loss:
the output is the collection itself) and terminates after exactly `P` page
requests. -/
theorem claim_C1 {α : Type} (l : List α) (S P r : Nat) (wm : Bool)
    (hP : 1 ≤ P) (hr : 0 < r) (hrS : r < S)
    (hlen : l.length = (P - 1) * S + r) (fuel : Nat) (hfuel : P ≤ fuel) :
    fetchAll (listServer l S wm) S fuel = some (l, P) := by
  have h := fetchPages_listServer l S P r wm hr hrS hlen (P - 1) 1 0 fuel
    (le_refl 1) (by omega) (by omega)
  rw [Nat.sub_add_cancel hP] at h
  simpa [fetchAll] using h

/-- Claim C1 witness: the collection `[10, 20, 30]` paged 2 per page (2 pages,
last page partial), both with and without pagination metadata: all 3 records
in order, 2 requests. -/
theorem claim_C1_witness :
    fetchAll (listServer smallCollection 2 true) 2 5 =
      some (smallCollection, 2) ∧
    fetchAll (listServer smallCollection 2 false) 2 5 =
      some (smallCollection, 2) :=
  ⟨claim_C1 smallCollection 2 2 1 true (by decide) (by decide) (by decide)
      (by decide) 5 (by decide),
    claim_C1 smallCollection 2 2 1 false (by decide) (by decide) (by decide)
      (by decide) 5 (by decide)⟩

theorem fetchPages_count_pos {α : Type} (server : Nat → Nat → PageResult α)
    (S : Nat) : ∀ (fuel t page : Nat) (res : List α) (n : Nat),
    fetchPagesFrom server S fuel t page = some (res, n) → 1 ≤ n := by
  intro fuel
  induction fuel with
  | zero => intro t page res n h; simp [fetchPagesFrom] at h
  | succ f ih =>
    intro t page res n h
    cases hsv : server t page
    case ok recs meta =>
      simp only [fetchPagesFrom, hsv] at h
      split at h
      · simp only [Option.some.injEq, Prod.mk.injEq] at h
        omega
      · split at h
        · simp only [Option.some.injEq, Prod.mk.injEq] at h
          omega
        · cases hin : fetchPagesFrom server S f (t+1) (page+1)
          case none => simp [hin] at h
          case some x =>
            obtain ⟨rest, m⟩ := x
            simp only [hin, Option.some.injEq, Prod.mk.injEq] at h
            omega
    case throttled =>
      simp only [fetchPagesFrom, hsv] at h
      cases hin : fetchPagesFrom server S f (t+1) page
      case none => simp [hin] at h
      case some x =>
        obtain ⟨rest, m⟩ := x
        simp only [hin, Option.some.injEq, Prod.mk.injEq] at h
        omega
    case fail =>
      simp only [fetchPagesFrom, hsv, Option.some.injEq, Prod.mk.injEq] at h
      omega

theorem fetchPages_time_invariant {α : Type} (server : Nat → Nat → PageResult α)
    (S : Nat) (hinv : ∀ t u p, server t p = server u p) :
    ∀ (fuel t u page : Nat),
      fetchPagesFrom server S fuel t page = fetchPagesFrom server S fuel u page := by
  intro fuel
  induction fuel with
  | zero => intro t u page; rfl
  | succ f ih =>
    intro t u page
    simp only [fetchPagesFrom, hinv t u page]
    cases server u page with
    | ok recs meta => rw [ih (t+1) (u+1) (page+1)]
    | throttled => rw [ih (t+1) (u+1) page]
    | fail => rfl

theorem fetchPages_throttle_past {α : Type} (server : Nat → Nat → PageResult α)
    (S t0 : Nat) :
    ∀ (fuel t page : Nat), t0 < t →
      fetchPagesFrom (throttleAt t0 server) S fuel t page =
        fetchPagesFrom server S fuel t page := by
  intro fuel
  induction fuel with
  | zero => intro t page ht; rfl
  | succ f ih =>
    intro t page ht
    have hne : t ≠ t0 := by omega
    simp only [fetchPagesFrom, throttleAt, if_neg hne]
    cases server t page with
    | ok recs meta => rw [ih (t+1) (page+1) (by omega)]
    | throttled => rw [ih (t+1) page (by omega)]
    | fail => rfl

theorem fetchPages_ok_step {α : Type} (server : Nat → Nat → PageResult α)
    (S fuel t page : Nat) (recs : List α) (meta : Option Nat)
    (hsv : server t page = PageResult.ok recs meta) :
    fetchPagesFrom server S (fuel + 1) t page =
      (if recs.length = 0 then some ([], 1)
       else
        if (match meta with
            | some pageCount => decide (pageCount ≤ page)
            | none => decide (recs.length < S)) then
          some (recs, 1)
        else
          match fetchPagesFrom server S fuel (t+1) (page+1) with
          | none => none
          | some (rest, n) => some (recs ++ rest, n+1)) := by
  simp only [fetchPagesFrom, hsv]

theorem fetchPages_throttled_step {α : Type} (server : Nat → Nat → PageResult α)
    (S fuel t page : Nat) (hsv : server t page = PageResult.throttled) :
    fetchPagesFrom server S (fuel + 1) t page =
      (match fetchPagesFrom server S fuel (t+1) page with
       | none => none
       | some (res, n) => some (res, n+1)) := by
  simp only [fetchPagesFrom, hsv]

theorem fetchPages_fail_step {α : Type} (server : Nat → Nat → PageResult α)
    (S fuel t page : Nat) (hsv : server t page = PageResult.fail) :
    fetchPagesFrom server S (fuel + 1) t page = some ([], 1) := by
  simp only [fetchPagesFrom, hsv]

theorem fetchPages_throttle_insert {α : Type}
    (server : Nat → Nat → PageResult α) (S t0 : Nat)
    (hinv : ∀ t u p, server t p = server u p)
    (hok : ∀ t p, server t p ≠ PageResult.throttled) :
    ∀ (fuel t page : Nat) (res : List α) (n : Nat), t ≤ t0 →
      fetchPagesFrom server S fuel t page = some (res, n) →
      (t0 < t + n →
        fetchPagesFrom (throttleAt t0 server) S (fuel + 1) t page =
          some (res, n + 1)) ∧
      (t + n ≤ t0 →
        fetchPagesFrom (throttleAt t0 server) S (fuel + 1) t page =
          some (res, n)) := by
  intro fuel
  induction fuel with
  | zero => intro t page res n ht h; simp [fetchPagesFrom] at h
  | succ f ih =>
    intro t page res n ht h
    have hn1 : 1 ≤ n := fetchPages_count_pos server S (f+1) t page res n h
    by_cases htt : t = t0
    · subst htt
      constructor
      · intro hlt
        have hstep : throttleAt t server t page = PageResult.throttled := by
          simp [throttleAt]
        rw [fetchPages_throttled_step (throttleAt t server) S (f+1) t page hstep]
        rw [fetchPages_throttle_past server S t (f+1) (t+1) page (by omega)]
        rw [fetchPages_time_invariant server S hinv (f+1) (t+1) t page]
        rw [h]
      · intro hle
        exact absurd hle (by omega)
    · have htlt : t < t0 := by omega
      have hne : throttleAt t0 server t page = server t page := by
        simp [throttleAt, htt]
      cases hsv : server t page with
      | ok recs meta =>
        have hstep : throttleAt t0 server t page = PageResult.ok recs meta := by
          rw [hne, hsv]
        rw [fetchPages_ok_step server S f t page recs meta hsv] at h
        split at h
        next hcond =>
          simp only [Option.some.injEq, Prod.mk.injEq] at h
          obtain ⟨hres, hn⟩ := h
          constructor
          · intro hlt
            exact absurd hlt (by omega)
          · intro hle
            rw [fetchPages_ok_step (throttleAt t0 server) S (f+1) t page recs
              meta hstep, if_pos hcond, ← hres, ← hn]
        next hcond =>
          split at h
          next hcond2 =>
            simp only [Option.some.injEq, Prod.mk.injEq] at h
            obtain ⟨hres, hn⟩ := h
            constructor
            · intro hlt
              exact absurd hlt (by omega)
            · intro hle
              rw [fetchPages_ok_step (throttleAt t0 server) S (f+1) t page recs
                meta hstep, if_neg hcond, if_pos hcond2, ← hres, ← hn]
          next hcond2 =>
            cases hin : fetchPagesFrom server S f (t+1) (page+1) with
            | none => simp [hin] at h
            | some x =>
              obtain ⟨rest, m⟩ := x
              simp only [hin, Option.some.injEq, Prod.mk.injEq] at h
              obtain ⟨hres, hn⟩ := h
              subst hres
              subst hn
              have hih := ih (t+1) (page+1) rest m (by omega) hin
              constructor
              · intro hlt
                rw [fetchPages_ok_step (throttleAt t0 server) S (f+1) t page
                  recs meta hstep, if_neg hcond, if_neg hcond2,
                  hih.1 (by omega)]
              · intro hle
                rw [fetchPages_ok_step (throttleAt t0 server) S (f+1) t page
                  recs meta hstep, if_neg hcond, if_neg hcond2,
                  hih.2 (by omega)]
      | throttled => exact absurd hsv (hok t page)
      | fail =>
        have hstep : throttleAt t0 server t page = PageResult.fail := by
          rw [hne, hsv]
        rw [fetchPages_fail_step server S f t page hsv] at h
        simp only [Option.some.injEq, Prod.mk.injEq] at h
        obtain ⟨hres, hn⟩ := h
        constructor
        · intro hlt
          exact absurd hlt (by omega)
        · intro hle
          rw [fetchPages_fail_step (throttleAt t0 server) S (f+1) t page hstep,
            ← hres, ← hn]

theorem fetchPages_fuel_mono {α : Type} (server : Nat → Nat → PageResult α)
    (S : Nat) : ∀ (fuel fuel' t page : Nat) (res : List α) (n : Nat),
    fuel ≤ fuel' →
    fetchPagesFrom server S fuel t page = some (res, n) →
    fetchPagesFrom server S fuel' t page = some (res, n) := by
  intro fuel
  induction fuel with
  | zero => intro fuel' t page res n hle h; simp [fetchPagesFrom] at h
  | succ f ih =>
    intro fuel' t page res n hle h
    cases fuel' with
    | zero => omega
    | succ g =>
      cases hsv : server t page with
      | ok recs meta =>
        rw [fetchPages_ok_step server S f t page recs meta hsv] at h
        rw [fetchPages_ok_step server S g t page recs meta hsv]
        split at h
        next hcond => rw [if_pos hcond]; exact h
        next hcond =>
          rw [if_neg hcond]
          split at h
          next hcond2 => rw [if_pos hcond2]; exact h
          next hcond2 =>
            rw [if_neg hcond2]
            cases hin : fetchPagesFrom server S f (t+1) (page+1) with
            | none => simp [hin] at h
            | some x =>
              obtain ⟨rest, m⟩ := x
              rw [ih g (t+1) (page+1) rest m (by omega) hin]
              rw [hin] at h
              exact h
      | throttled =>
        rw [fetchPages_throttled_step server S f t page hsv] at h
        rw [fetchPages_throttled_step server S g t page hsv]
        cases hin : fetchPagesFrom server S f (t+1) page with
        | none => simp [hin] at h
        | some x =>
          obtain ⟨rest, m⟩ := x
          rw [ih g (t+1) page rest m (by omega) hin]
          rw [hin] at h
          exact h
      | fail =>
        rw [fetchPages_fail_step server S f t page hsv] at h
        rw [fetchPages_fail_step server S g t page hsv]
        exact h

/-- Claim C5: if one request (the one with index `t0`, hit while the loop is
mid-run, `t0 < P`) is answered 429 and every other request succeeds, the
fetcher retries the same page after the cooldown and returns exactly the
unthrottled result set — the whole collection, nothing skipped, nothing
duplicated — with exactly one extra request (`P + 1`).  The second conjunct
is the structural retry fact: a throttled response makes the loop re-request
the very same page `p` without touching the accumulator, counting one
request. -/
theorem claim_C5 {α : Type} (l : List α) (S P r t0 : Nat) (wm : Bool)
    (hP : 1 ≤ P) (hr : 0 < r) (hrS : r < S)
    (hlen : l.length = (P - 1) * S + r) (ht0 : t0 < P)
    (fuel : Nat) (hfuel : P + 1 ≤ fuel) :
    fetchAll (throttleAt t0 (listServer l S wm)) S fuel = some (l, P + 1) ∧
    (∀ (server : Nat → Nat → PageResult α) (f t p : Nat),
      server t p = PageResult.throttled →
      fetchPagesFrom server S (f + 1) t p =
        (match fetchPagesFrom server S f (t + 1) p with
         | none => none
         | some (res, n) => some (res, n + 1))) := by
  constructor
  · have hpure : fetchPagesFrom (listServer l S wm) S P 0 1 = some (l, P) := by
      have h := fetchPages_listServer l S P r wm hr hrS hlen (P - 1) 1 0 P
        (le_refl 1) (by omega) (by omega)
      rw [Nat.sub_add_cancel hP] at h
      simpa using h
    have hthr := (fetchPages_throttle_insert (listServer l S wm) S t0
      (fun _ _ _ => rfl) (fun _ _ => by simp [listServer]) P 0 1 l P
      (by omega) hpure).1 (by omega)
    have hmono := fetchPages_fuel_mono (throttleAt t0 (listServer l S wm)) S
      (P + 1) fuel 0 1 l (P + 1) hfuel hthr
    simpa [fetchAll] using hmono
  · intro server f t p hsv
    exact fetchPages_throttled_step server S f t p hsv

/-- Claim C5 witness: fetching `[10, 20, 30]` (2 pages of size 2) with the
second request throttled once: the full collection comes back after 3
requests instead of 2. -/
theorem claim_C5_witness :
    fetchAll (throttleAt 1 (listServer smallCollection 2 false)) 2 5 =
      some (smallCollection, 3) :=
  (claim_C5 smallCollection 2 2 1 1 false (by decide) (by decide) (by decide)
    (by decide) (by decide) 5 (by decide)).1

theorem fetchPages_failAt {α : Type} (l : List α) (S P r f0 : Nat) (wm : Bool)
    (hr : 0 < r) (hrS : r < S) (hlen : l.length = (P - 1) * S + r)
    (hfP : f0 ≤ P) :
    ∀ (j p t fuel : Nat), 1 ≤ p → p + j = f0 → j < fuel →
      fetchPagesFrom (failAtPage f0 (listServer l S wm)) S fuel t p =
        some ((l.drop ((p - 1) * S)).take ((f0 - p) * S), j + 1) := by
  intro j
  induction j with
  | zero =>
    intro p t fuel h1 h2 h3
    have hp : f0 = p := by omega
    subst hp
    cases fuel with
    | zero => omega
    | succ f =>
      have hsv : failAtPage f0 (listServer l S wm) t f0 = PageResult.fail := by
        simp [failAtPage]
      rw [fetchPages_fail_step (failAtPage f0 (listServer l S wm)) S f t f0 hsv]
      simp
  | succ j ih =>
    intro p t fuel h1 h2 h3
    have hpf : p < f0 := by omega
    have hpP : p < P := by omega
    cases fuel with
    | zero => omega
    | succ f =>
      have hsv : failAtPage f0 (listServer l S wm) t p =
          PageResult.ok (pageSlice l S p)
            (if wm then some (pageCountOf l.length S) else none) := by
        simp [failAtPage, listServer]
        omega
      have hd : P - 1 = (p - 1) + (P - p) := by omega
      have hlen2 : l.length = (p - 1) * S + ((P - p) * S + r) := by
        rw [hlen, hd, Nat.add_mul, Nat.add_assoc]
      have hdl : l.length - (p - 1) * S = (P - p) * S + r := by omega
      have hSle : 1 * S ≤ (P - p) * S := Nat.mul_le_mul_right S (by omega)
      have hrl : (pageSlice l S p).length = S := by
        rw [pageSlice_length, hdl]
        omega
      have hih := ih (p + 1) (t + 1) f (by omega) (by omega) (by omega)
      simp only [Nat.add_sub_cancel] at hih
      have hmul : p * S = (p - 1) * S + S := by
        cases p with
        | zero => omega
        | succ q => simp [Nat.succ_mul]
      have hmul2 : (f0 - p) * S = S + (f0 - (p + 1)) * S := by
        have hd2 : f0 - p = 1 + (f0 - (p + 1)) := by omega
        rw [hd2, Nat.add_mul, Nat.one_mul]
      have happ : pageSlice l S p ++
          (l.drop (p * S)).take ((f0 - (p + 1)) * S) =
          (l.drop ((p - 1) * S)).take ((f0 - p) * S) := by
        have h4 : l.drop (p * S) = (l.drop ((p - 1) * S)).drop S := by
          rw [List.drop_drop, ← hmul]
        rw [h4, hmul2, List.take_add]
        rfl
      rw [fetchPages_ok_step (failAtPage f0 (listServer l S wm)) S f t p
        (pageSlice l S p) (if wm then some (pageCountOf l.length S) else none)
        hsv]
      rw [if_neg (by rw [hrl]; omega)]
      have hpc : pageCountOf l.length S = P := by
        rw [hlen]
        exact pageCountOf_eq S P r (by omega) hr hrS
      rw [if_neg ?hstop]
      case hstop =>
        cases wm with
        | false => simp [hrl]
        | true =>
          simp only [if_true, hpc, decide_eq_true_eq]
          omega
      rw [hih]
      simp [happ]

/-- Claim C6: when the request for page `f0` fails with a non-throttle
transport error (every earlier page having succeeded), the loop stops
advancing and returns — as an ordinary value, not an exception (the `catch`
sets `hasMorePages = false` and the function returns normally) — exactly the
records of the `f0 - 1` previously successful pages, after `f0` requests. -/
theorem claim_C6 {α : Type} (l : List α) (S P r f0 : Nat) (wm : Bool)
    (hr : 0 < r) (hrS : r < S) (hlen : l.length = (P - 1) * S + r)
    (hf1 : 1 ≤ f0) (hfP : f0 ≤ P) (fuel : Nat) (hfuel : f0 ≤ fuel) :
    fetchAll (failAtPage f0 (listServer l S wm)) S fuel =
      some (l.take ((f0 - 1) * S), f0) := by
  have h := fetchPages_failAt l S P r f0 wm hr hrS hlen hfP (f0 - 1) 1 0 fuel
    (le_refl 1) (by omega) (by omega)
  rw [Nat.sub_add_cancel hf1] at h
  simpa [fetchAll] using h

/-- Claim C6 witness: fetching `[10, 20, 30]` (2 pages of size 2) with page 2
failing: the two records of page 1 come back as a normal partial result after
2 requests. -/
theorem claim_C6_witness :
    fetchAll (failAtPage 2 (listServer smallCollection 2 false)) 2 5 =
      some ([10, 20], 2) := by
  have h := claim_C6 smallCollection 2 2 1 2 false (by decide) (by decide)
    (by decide) (by decide) (by decide) 5 (by decide)
  simpa [smallCollection] using h

/-! ### Claim C7: lead resolution boundedness -/

theorem scanPage_mem (pl : List Lead) :
    ∀ (rem : Finset Nat) (e : Nat × String), e ∈ (scanPage pl rem).2 →
      ∃ ld ∈ pl, ld.id = e.1 ∧ statusOrUnknown ld.status = e.2 := by
  induction pl with
  | nil => intro rem e he; simp [scanPage] at he
  | cons l ls ih =>
    intro rem e he
    by_cases hl : l.id ∈ rem
    · simp only [scanPage, if_pos hl] at he
      rcases List.mem_cons.mp he with rfl | he2
      · exact ⟨l, List.mem_cons_self l ls, rfl, rfl⟩
      · obtain ⟨ld, hld, h1, h2⟩ := ih (rem.erase l.id) e he2
        exact ⟨ld, List.mem_cons_of_mem l hld, h1, h2⟩
    · simp only [scanPage, if_neg hl] at he
      obtain ⟨ld, hld, h1, h2⟩ := ih rem e he
      exact ⟨ld, List.mem_cons_of_mem l hld, h1, h2⟩

theorem remSeqFrom_shift (pages : Nat → List Lead) :
    ∀ (j p : Nat) (rem : Finset Nat),
      remSeqFrom pages p rem (j + 1) =
        remSeqFrom pages (p + 1) (scanPage (pages p) rem).1 j := by
  intro j
  induction j with
  | zero =>
    intro p rem
    simp [remSeqFrom]
  | succ j ih =>
    intro p rem
    have h1 : remSeqFrom pages p rem (j + 1 + 1) =
        (scanPage (pages (p + (j + 1))) (remSeqFrom pages p rem (j + 1))).1 :=
      rfl
    rw [h1, ih p rem]
    have h2 : p + (j + 1) = (p + 1) + j := by omega
    rw [h2]
    rfl

theorem resolveLoop_spec (pages : Nat → List Lead) :
    ∀ (fuel page : Nat) (rem : Finset Nat)
      (found res : List (Nat × String)) (n : Nat),
      resolveLoop pages fuel page rem found = some (res, n) →
      (∀ j, j < n → remSeqFrom pages page rem j ≠ ∅) ∧
      (∀ j, j + 1 < n → pages (page + j) ≠ []) ∧
      (0 < n → remSeqFrom pages page rem n = ∅ ∨ pages (page + n - 1) = []) ∧
      (n = 0 → rem = ∅ ∧ res = found) ∧
      (∀ e, e ∈ res → e ∈ found ∨
        ∃ j, j < n ∧ ∃ ld ∈ pages (page + j),
          ld.id = e.1 ∧ statusOrUnknown ld.status = e.2) := by
  intro fuel
  induction fuel with
  | zero => intro page rem found res n h; simp [resolveLoop] at h
  | succ f ih =>
    intro page rem found res n h
    simp only [resolveLoop] at h
    split at h
    next hrem =>
      simp only [Option.some.injEq, Prod.mk.injEq] at h
      obtain ⟨hres, hn⟩ := h
      subst hres
      refine ⟨fun j hj => by omega, fun j hj => by omega,
        fun h0 => by omega, fun _ => ⟨hrem, rfl⟩, fun e he => Or.inl he⟩
    next hrem =>
      split at h
      next hpage =>
        simp only [Option.some.injEq, Prod.mk.injEq] at h
        obtain ⟨hres, hn⟩ := h
        subst hres
        refine ⟨?_, fun j hj => by omega, ?_, fun h0 => by omega,
          fun e he => Or.inl he⟩
        · intro j hj
          have hj0 : j = 0 := by omega
          subst hj0
          simpa [remSeqFrom] using hrem
        · intro h0
          right
          have hidx : page + n - 1 = page := by omega
          rw [hidx]
          exact hpage
      next hpage =>
        split at h
        next hscan =>
          simp only [Option.some.injEq, Prod.mk.injEq] at h
          obtain ⟨hres, hn⟩ := h
          subst hres
          refine ⟨?_, fun j hj => by omega, ?_, fun h0 => by omega, ?_⟩
          · intro j hj
            have hj0 : j = 0 := by omega
            subst hj0
            simpa [remSeqFrom] using hrem
          · intro h0
            left
            have h1 : remSeqFrom pages page rem n =
                (scanPage (pages (page + 0)) rem).1 := by
              rw [← hn]
              rfl
            rw [h1]
            simpa using hscan
          · intro e he
            rcases List.mem_append.mp he with he1 | he2
            · exact Or.inl he1
            · right
              obtain ⟨ld, hld, h1, h2⟩ := scanPage_mem (pages page) rem e he2
              exact ⟨0, by omega, ld, by simpa using hld, h1, h2⟩
        next hscan =>
          cases hin : resolveLoop pages f (page + 1)
              (scanPage (pages page) rem).1 (found ++ (scanPage (pages page) rem).2) with
          | none => simp [hin] at h
          | some x =>
            obtain ⟨res', m⟩ := x
            simp only [hin, Option.some.injEq, Prod.mk.injEq] at h
            obtain ⟨hres, hn⟩ := h
            subst hres
            subst hn
            have hih := ih (page + 1) (scanPage (pages page) rem).1
              (found ++ (scanPage (pages page) rem).2) res' m hin
            have hm : 0 < m := by
              rcases Nat.eq_zero_or_pos m with h0 | h0
              · exact absurd (hih.2.2.2.1 h0).1 hscan
              · exact h0
            refine ⟨?_, ?_, ?_, fun h0 => by omega, ?_⟩
            · intro j hj
              cases j with
              | zero => simpa [remSeqFrom] using hrem
              | succ j2 =>
                rw [remSeqFrom_shift pages j2 page rem]
                exact hih.1 j2 (by omega)
            · intro j hj
              cases j with
              | zero => simpa using hpage
              | succ j2 =>
                have hidx : page + (j2 + 1) = (page + 1) + j2 := by omega
                rw [hidx]
                exact hih.2.1 j2 (by omega)
            · intro h0
              rcases hih.2.2.1 hm with hleft | hright
              · left
                rw [remSeqFrom_shift pages m page rem]
                exact hleft
              · right
                have hidx : page + (m + 1) - 1 = (page + 1) + m - 1 := by omega
                rw [hidx]
                exact hright
            · intro e he
              rcases hih.2.2.2.2 e he with he1 | ⟨j, hj, ld, hld, h1, h2⟩
              · rcases List.mem_append.mp he1 with he2 | he3
                · exact Or.inl he2
                · right
                  obtain ⟨ld, hld, h1, h2⟩ := scanPage_mem (pages page) rem e he3
                  exact ⟨0, by omega, ld, by simpa using hld, h1, h2⟩
              · right
                refine ⟨j + 1, by omega, ld, ?_, h1, h2⟩
                have hidx : page + (j + 1) = (page + 1) + j := by omega
                rw [hidx]
                exact hld

/-- Claim C7: whenever the resolution loop over a requested id set returns
(entries `res` after `n` page requests), each of the `n` requests was
necessary — before every request the outstanding set was still nonempty, and
every non-final fetched page was nonempty — and the loop stopped exactly at
the first of the two exit events: the final request either emptied the
outstanding set or hit an empty page (`n = 0` only when nothing was requested
at all).  An id that appears in no lead page produces no entry in the result
map. -/
theorem claim_C7 (pages : Nat → List Lead) (requested : Finset Nat)
    (fuel : Nat) (res : List (Nat × String)) (n : Nat)
    (h : resolveLeads pages requested fuel = some (res, n)) :
    (∀ j, j < n → remSeqFrom pages 1 requested j ≠ ∅) ∧
    (∀ j, j + 1 < n → pages (1 + j) ≠ []) ∧
    (0 < n → remSeqFrom pages 1 requested n = ∅ ∨ pages n = []) ∧
    (n = 0 → requested = ∅) ∧
    (∀ i s, (∀ p ld, ld ∈ pages p → ld.id ≠ i) → (i, s) ∉ res) := by
  have hspec := resolveLoop_spec pages fuel 1 requested [] res n h
  refine ⟨hspec.1, hspec.2.1, ?_, fun h0 => (hspec.2.2.2.1 h0).1, ?_⟩
  · intro h0
    rcases hspec.2.2.1 h0 with hleft | hright
    · exact Or.inl hleft
    · right
      have hidx : 1 + n - 1 = n := by omega
      rw [hidx] at hright
      exact hright
  · intro i s habs hmem
    rcases hspec.2.2.2.2 (i, s) hmem with h1 | ⟨j, hj, ld, hld, h1, h2⟩
    · simp at h1
    · exact habs (1 + j) ld hld h1

/-- Claim C7 witness: requesting ids {5, 7} against lead pages holding lead 5
on page 1 and lead 7 on page 2: the loop returns both statuses after exactly
2 page requests — before each request the outstanding set was nonempty, the
second request emptied it — and the absent id 99 has no entry. -/
theorem claim_C7_witness :
    remSeqFrom pagesW 1 {5, 7} 0 ≠ ∅ ∧
    remSeqFrom pagesW 1 {5, 7} 1 ≠ ∅ ∧
    (remSeqFrom pagesW 1 {5, 7} 2 = ∅ ∨ pagesW 2 = []) ∧
    (99, "success") ∉ [(5, "success"), (7, "new")] := by
  have h := claim_C7 pagesW {5, 7} 5 [(5, "success"), (7, "new")] 2 (by decide)
  refine ⟨h.1 0 (by decide), h.1 1 (by decide), h.2.2.1 (by decide),
    h.2.2.2.2 99 "success" ?_⟩
  intro p ld hld
  by_cases h1 : p = 1
  · simp [pagesW, h1] at hld
    subst hld
    decide
  · by_cases h2 : p = 2
    · simp [pagesW, h1, h2] at hld
      subst hld
      decide
    · simp [pagesW, h1, h2] at hld
